import Mathlib

/-!
Shallow embedding of the hyle node's hashing, transaction and settlement
code, together with theorems checking the natural-language specification
against it.

Bytes are modelled as `Nat` (each byte `< 256` where produced by the
embedded code); Rust `Vec<u8>` becomes `List Nat`, Rust `String` becomes
Lean `String` and its UTF-8 bytes are modelled via code points (exact for
the ASCII data handled here).
-/

namespace Hyle

abbrev Byte := Nat

/-- UTF-8 bytes of a Rust string, modelled as the code points of its
characters (exact for ASCII strings). -/
def strBytes (s : String) : List Byte := s.data.map Char.toNat

/-- Little-endian byte representation (`to_le_bytes`) of a `w`-byte unsigned integer. -/
def leBytes (w : Nat) (n : Nat) : List Byte :=
  (List.range w).map (fun i => (n >>> (8 * i)) % 256)

/-! ### SHA3-256 (the `sha3::Sha3_256` dependency), as the Keccak sponge -/

def mask64 : Nat := 0xFFFFFFFFFFFFFFFF

/-- Rotate left within 64 bits. -/
def rotl64 (x n : Nat) : Nat :=
  ((x <<< (n % 64)) ||| (x >>> (64 - n % 64))) &&& mask64

/-- Keccak ρ offsets as (lane, offset) pairs, generated by the standard walk:
starting from (x, y) = (1, 0), step t assigns lane x + 5y the offset
(t+1)(t+2)/2 mod 64 and moves to (y, (2x + 3y) mod 5). -/
def rhoPairs : List (Nat × Nat) :=
  ((List.range 24).foldl
    (fun st t =>
      ((st.1.2, (2 * st.1.1 + 3 * st.1.2) % 5),
       (st.1.1 + 5 * st.1.2, (t + 1) * (t + 2) / 2 % 64) :: st.2))
    ((1, 0), [])).2

/-- Keccak ρ rotation offsets, indexed by lane `x + 5*y` (lane 0 rotates by 0). -/
def rhoOffsets : List Nat :=
  (List.range 25).map (fun i =>
    ((rhoPairs.find? (fun p => p.1 = i)).map (fun p => p.2)).getD 0)

/-- One step of the degree-8 LFSR (x⁸ + x⁶ + x⁵ + x⁴ + 1) that generates the
Keccak ι round-constant bits. -/
def keccakLfsrStep (r : Nat) : Nat :=
  let r2 := r <<< 1
  if r2 &&& 0x100 ≠ 0 then (r2 ^^^ 0x71) &&& 0xFF else r2 &&& 0xFF

/-- Bit t of the Keccak round-constant sequence. -/
def keccakRcBit (t : Nat) : Nat :=
  ((List.range t).foldl (fun r _ => keccakLfsrStep r) 1) &&& 1

/-- Keccak ι round constants: round i sets bit 2^j - 1 to rc(7i + j). -/
def roundConstants : List Nat :=
  (List.range 24).map (fun i =>
    (List.range 7).foldl (fun acc j => acc ||| (keccakRcBit (7 * i + j) <<< (2 ^ j - 1))) 0)

def keccakTheta (st : List Nat) : List Nat :=
  let c := (List.range 5).map (fun x =>
    st.getD x 0 ^^^ st.getD (x + 5) 0 ^^^ st.getD (x + 10) 0 ^^^
      st.getD (x + 15) 0 ^^^ st.getD (x + 20) 0)
  let d := (List.range 5).map (fun x =>
    c.getD ((x + 4) % 5) 0 ^^^ rotl64 (c.getD ((x + 1) % 5) 0) 1)
  (List.range 25).map (fun i => st.getD i 0 ^^^ d.getD (i % 5) 0)

def keccakRhoPi (st : List Nat) : List Nat :=
  (List.range 25).foldl
    (fun acc i =>
      let x := i % 5
      let y := i / 5
      let j := y + 5 * ((2 * x + 3 * y) % 5)
      acc.set j (rotl64 (st.getD i 0) (rhoOffsets.getD i 0)))
    (List.replicate 25 0)

def keccakChi (st : List Nat) : List Nat :=
  (List.range 25).map (fun i =>
    let x := i % 5
    let y := i / 5
    st.getD i 0 ^^^
      ((st.getD ((x + 1) % 5 + 5 * y) 0 ^^^ mask64) &&&
        st.getD ((x + 2) % 5 + 5 * y) 0))

def keccakIota (rc : Nat) (st : List Nat) : List Nat :=
  st.set 0 (st.getD 0 0 ^^^ rc)

/-- The Keccak-f[1600] permutation: 24 rounds of θ, ρ, π, χ, ι. -/
def keccakF (st : List Nat) : List Nat :=
  roundConstants.foldl (fun s rc => keccakIota rc (keccakChi (keccakRhoPi (keccakTheta s)))) st

/-- SHA3 multi-rate padding to a multiple of the 136-byte rate
(domain byte `0x06`, final bit `0x80`). -/
def sha3Pad (msg : List Byte) : List Byte :=
  let padLen := 136 - msg.length % 136
  if padLen = 1 then msg ++ [0x86]
  else msg ++ [0x06] ++ List.replicate (padLen - 2) 0 ++ [0x80]

/-- Assemble a 64-bit lane from (up to) 8 little-endian bytes. -/
def bytesToLane (bs : List Byte) : Nat :=
  bs.foldr (fun b acc => acc * 256 + b % 256) 0

/-- Split a byte string into 136-byte blocks. -/
def chunks136 (l : List Byte) : List (List Byte) :=
  if h : l = [] then []
  else l.take 136 :: chunks136 (l.drop 136)
termination_by l.length
decreasing_by
  cases l with
  | nil => exact absurd rfl h
  | cons a t => simp [List.length_drop]; omega

/-- Absorb one 136-byte block into the sponge state. -/
def sha3Absorb (st : List Nat) (block : List Byte) : List Nat :=
  keccakF ((List.range 25).map (fun i =>
    if i < 17 then st.getD i 0 ^^^ bytesToLane ((block.drop (8 * i)).take 8)
    else st.getD i 0))

/-- Little-endian bytes of a 64-bit lane. -/
def laneBytes (n : Nat) : List Byte :=
  (List.range 8).map (fun j => (n >>> (8 * j)) % 256)

/-- SHA3-256 of a byte string: pad, absorb all blocks, squeeze 32 bytes. -/
def sha3_256 (msg : List Byte) : List Byte :=
  let st := (chunks136 (sha3Pad msg)).foldl sha3Absorb (List.replicate 25 0)
  ((List.range 4).map (fun i => laneBytes (st.getD i 0))).flatten

/-- Lowercase hex digit for a nibble. -/
def hexDigitChar (n : Nat) : Char :=
  if n < 10 then Char.ofNat (48 + n) else Char.ofNat (87 + n)

/-- Lowercase hex encoding of a byte string (the `hex::encode` dependency). -/
def hexEncode (bs : List Byte) : String :=
  String.mk ((bs.map (fun b => [hexDigitChar (b / 16 % 16), hexDigitChar (b % 16)])).flatten)

/-! ### Core data model

Newtypes from `hyle_contract_sdk` (string wrappers and byte wrappers) and the
transaction model of `src/model.rs` and `crates/client-sdk/src/lib.rs`. -/

structure Identity where
  s : String
deriving DecidableEq, Repr

structure TxHash where
  s : String
deriving DecidableEq, Repr

structure ContractName where
  s : String
deriving DecidableEq, Repr

structure Verifier where
  s : String
deriving DecidableEq, Repr

structure StateDigest where
  bytes : List Byte
deriving DecidableEq, Repr

structure ProgramId where
  bytes : List Byte
deriving DecidableEq, Repr

structure BlobData where
  bytes : List Byte
deriving DecidableEq, Repr

structure BlobIndex where
  i : Nat
deriving DecidableEq, Repr

/-- Modelled from the spec: `staking::model::ValidatorPublicKey` is not in the
tree; the spec (§3) identifies a validator by a BLS public key, modelled as its
bytes. -/
structure ValidatorPublicKey where
  bytes : List Byte
deriving DecidableEq, Repr

structure Blob where
  contract_name : ContractName
  data : BlobData
deriving DecidableEq, Repr

/-- `BlobTransaction` from `crates/client-sdk/src/lib.rs`. -/
structure BlobTransaction where
  identity : Identity
  blobs : List Blob
deriving DecidableEq, Repr

/-- `HyleOutput` from `hyle_contract_sdk`, with the exact field list consumed
by the `Hashable` impl in `src/model.rs` (version, initial_state, next_state,
identity, tx_hash, index, blobs, success, program_outputs). -/
structure HyleOutput where
  version : Nat
  initial_state : StateDigest
  next_state : StateDigest
  identity : Identity
  tx_hash : TxHash
  index : BlobIndex
  blobs : List Byte
  success : Bool
  program_outputs : List Byte
deriving DecidableEq, Repr

inductive ProofData where
  | base64 (s : String)
  | bytes (bs : List Byte)
deriving DecidableEq, Repr

structure ProofDataHash where
  s : String
deriving DecidableEq, Repr

structure BlobsHash where
  s : String
deriving DecidableEq, Repr

structure ProofTransaction where
  contract_name : ContractName
  proof : ProofData
deriving DecidableEq, Repr

structure BlobProofOutput where
  blob_tx_hash : TxHash
  original_proof_hash : ProofDataHash
  hyle_output : HyleOutput
  program_id : ProgramId
deriving DecidableEq, Repr

structure VerifiedProofTransaction where
  contract_name : ContractName
  proof : Option ProofData
  proof_hash : ProofDataHash
  proven_blobs : List BlobProofOutput
  is_recursive : Bool
deriving DecidableEq, Repr

structure RegisterContractTransaction where
  owner : String
  verifier : Verifier
  program_id : ProgramId
  state_digest : StateDigest
  contract_name : ContractName
deriving DecidableEq, Repr

inductive TransactionData where
  | blob (tx : BlobTransaction)
  | proof (tx : ProofTransaction)
  | verifiedProof (tx : VerifiedProofTransaction)
  | registerContract (tx : RegisterContractTransaction)
deriving DecidableEq, Repr

structure Transaction where
  version : Nat
  transaction_data : TransactionData
deriving DecidableEq, Repr

/-! ### Hashing (`Hashable` impls)

A `Sha3_256` hasher accumulates a sequence of `update` calls; finalizing
hashes the concatenation of the updates. Each `Hashable` impl is embedded as
the list of its `update` arguments plus the finalization. -/

/-- Bytes fed to the hasher by a sequence of `update` calls. -/
def hasherInput (updates : List (List Byte)) : List Byte := updates.flatten

/-- Modelled from the spec: `sdk::flatten_blobs` lives in the contract SDK
crate, which is not in the tree. The spec (§3) writes it as `flatten(blobs)`;
consistently with every in-tree serialization in `src/model.rs` (plain
concatenation of field bytes), flattening concatenates, for each blob in
order, the contract-name bytes followed by the data bytes. -/
def flatten_blobs (blobs : List Blob) : List Byte :=
  (blobs.map (fun b => strBytes b.contract_name.s ++ b.data.bytes)).flatten

/-- `BlobsHash::from_concatenated`: SHA3-256 of the bytes, hex-encoded. -/
def blobsHashFromConcatenated (v : List Byte) : BlobsHash :=
  BlobsHash.mk (hexEncode (sha3_256 v))

/-- `BlobsHash::from_vec`: hash of the flattened blob list. -/
def blobsHashFromVec (blobs : List Blob) : BlobsHash :=
  blobsHashFromConcatenated (flatten_blobs blobs)

/-- `BlobTransaction::blobs_hash`. -/
def BlobTransaction.blobs_hash (tx : BlobTransaction) : BlobsHash :=
  blobsHashFromVec tx.blobs

/-- Hasher updates of `Hashable<TxHash> for BlobTransaction`:
identity bytes, then the hex string of the blobs hash. -/
def blobTxHashUpdates (tx : BlobTransaction) : List (List Byte) :=
  [strBytes tx.identity.s, strBytes tx.blobs_hash.s]

/-- `Hashable<TxHash> for BlobTransaction`. -/
def blobTxHash (tx : BlobTransaction) : TxHash :=
  TxHash.mk (hexEncode (sha3_256 (hasherInput (blobTxHashUpdates tx))))

/-- `Hashable<ProofDataHash> for ProofData`: hash of the base64 string bytes
or of the raw bytes. -/
def proofDataHash (p : ProofData) : ProofDataHash :=
  ProofDataHash.mk (hexEncode (sha3_256 (match p with
    | ProofData.base64 v => strBytes v
    | ProofData.bytes vec => vec)))

/-- Hasher updates of `Hashable<HyleOutputHash> for HyleOutput`
(`src/model.rs`): fields in declaration order, `version` as 4 little-endian
bytes (`u32`), `index` as 8 little-endian bytes (`usize`), `success` as one
byte. -/
def hyleOutputHashUpdates (ho : HyleOutput) : List (List Byte) :=
  [leBytes 4 ho.version,
   ho.initial_state.bytes,
   ho.next_state.bytes,
   strBytes ho.identity.s,
   strBytes ho.tx_hash.s,
   leBytes 8 ho.index.i,
   ho.blobs,
   [if ho.success then 1 else 0],
   ho.program_outputs]

/-- Bytes fed to SHA3-256 when hashing a `HyleOutput`. -/
def hyleOutputHashInput (ho : HyleOutput) : List Byte :=
  hasherInput (hyleOutputHashUpdates ho)

/-- `Hashable<HyleOutputHash> for HyleOutput`: raw 32 hash bytes. -/
def hyleOutputHash (ho : HyleOutput) : List Byte :=
  sha3_256 (hyleOutputHashInput ho)

/-- `Hashable<BlobProofOutputHash> for BlobProofOutput`. -/
def blobProofOutputHash (b : BlobProofOutput) : List Byte :=
  sha3_256 (hasherInput
    [strBytes b.blob_tx_hash.s,
     strBytes b.original_proof_hash.s,
     b.program_id.bytes,
     hyleOutputHash b.hyle_output])

/-- `Hashable<TxHash> for ProofTransaction`. -/
def proofTxHash (tx : ProofTransaction) : TxHash :=
  TxHash.mk (hexEncode (sha3_256 (hasherInput
    [strBytes tx.contract_name.s, strBytes (proofDataHash tx.proof).s])))

/-- `Hashable<TxHash> for VerifiedProofTransaction`: the proven-blob count is
length-prefixed (`usize` little-endian), then each blob-proof hash. -/
def verifiedProofTxHash (tx : VerifiedProofTransaction) : TxHash :=
  TxHash.mk (hexEncode (sha3_256 (hasherInput
    ([strBytes tx.contract_name.s,
      strBytes tx.proof_hash.s,
      leBytes 8 tx.proven_blobs.length] ++
     tx.proven_blobs.map blobProofOutputHash))))

/-- `Hashable<TxHash> for RegisterContractTransaction`. -/
def registerContractTxHash (tx : RegisterContractTransaction) : TxHash :=
  TxHash.mk (hexEncode (sha3_256 (hasherInput
    [strBytes tx.owner,
     strBytes tx.verifier.s,
     tx.program_id.bytes,
     tx.state_digest.bytes,
     strBytes tx.contract_name.s])))

/-- `Hashable<TxHash> for Transaction`: dispatch on the payload. -/
def transactionHash (tx : Transaction) : TxHash :=
  match tx.transaction_data with
  | TransactionData.blob t => blobTxHash t
  | TransactionData.proof t => proofTxHash t
  | TransactionData.verifiedProof t => verifiedProofTxHash t
  | TransactionData.registerContract t => registerContractTxHash t

/-! ### Identity validation (`BlobTransaction::validate_identity`) -/

/-- Rust `str::split('.')` on a character list: splits at every dot, keeping
empty segments, and yields one (possibly empty) segment even for the empty
string. -/
def splitDotChars : List Char → List (List Char)
  | [] => [[]]
  | c :: rest =>
    if c = '.' then [] :: splitDotChars rest
    else
      match splitDotChars rest with
      | [] => [[c]]
      | s :: ss => (c :: s) :: ss

def malformedIdentityMsg : String :=
  "Transaction identity is not correctly formed. It should be in the form <id>.<contract_id_name>"

def noIdentityBlobMsg (cn : List Char) : String :=
  "Can't find blob that proves the identity on contract '" ++ String.mk cn ++ "'"

/-- `BlobTransaction::validate_identity`: take the last segment of
`identity.split('.')` (error if the iterator is empty), then require some blob
whose contract name equals that segment. -/
def validate_identity (tx : BlobTransaction) : Except String Unit :=
  match (splitDotChars tx.identity.s.data).getLast? with
  | none => Except.error malformedIdentityMsg
  | some identity_contract_name =>
    if tx.blobs.any (fun blob => blob.contract_name.s.data = identity_contract_name) then
      Except.ok ()
    else
      Except.error (noIdentityBlobMsg identity_contract_name)

/-- The contract-name suffix the code extracts from an identity: the last
segment of `split('.')`, i.e. the part after the last dot (the whole string
when there is no dot). -/
def identitySuffix (s : String) : List Char :=
  ((splitDotChars s.data).getLast?).getD []

/-! ### Consensus-side model and `SignedBlock`

`src/model/consensus.rs`, `src/model/crypto.rs` and `src/model/mempool.rs`
are not in the tree; their data shapes are modelled from the spec (§3). -/

/-- Modelled from the spec: `crypto::Signature` (missing `src/model/crypto.rs`),
a byte-string signature. -/
structure Signature where
  bytes : List Byte
deriving DecidableEq, Repr

/-- Modelled from the spec: `crypto::AggregateSignature` (missing
`src/model/crypto.rs`), an aggregate signature with its signer set. -/
structure AggregateSignature where
  signature : Signature
  validators : List ValidatorPublicKey
deriving DecidableEq, Repr

structure DataProposalHash where
  s : String
deriving DecidableEq, Repr

/-- Modelled from the spec: `mempool::DataProposal` (missing
`src/model/mempool.rs`); the spec (§3) gives `(hash, parent_hash, txs)`, with
lanes hash-linked per validator. -/
structure DataProposal where
  hash : DataProposalHash
  parent_hash : Option DataProposalHash
  txs : List Transaction
deriving DecidableEq, Repr

structure ConsensusProposalHash where
  s : String
deriving DecidableEq, Repr

/-- Modelled from the spec: one `Cut` entry `(validator, data_proposal_hash,
poda_signature)` (§3). -/
structure CutEntry where
  validator : ValidatorPublicKey
  dp_hash : DataProposalHash
  poda : AggregateSignature
deriving DecidableEq, Repr

/-- Modelled from the spec: `consensus::ConsensusProposal` (missing
`src/model/consensus.rs`): `(slot, parent_hash, cut, new_bonded_validators,
view, …)` (§3). -/
structure ConsensusProposal where
  slot : Nat
  view : Nat
  parent_hash : ConsensusProposalHash
  cut : List CutEntry
  new_bonded_validators : List ValidatorPublicKey
deriving DecidableEq, Repr

/-- Modelled from the spec: the canonical serialization fed to SHA3-256 by
`Hashable<ConsensusProposalHash> for ConsensusProposal` (missing
`src/model/consensus.rs`); the spec says the hash binds all fields (§3) with
length-prefixed variable fields (§4.A). -/
def consensusProposalSerialize (cp : ConsensusProposal) : List Byte :=
  leBytes 8 cp.slot ++ leBytes 8 cp.view ++
  leBytes 8 (strBytes cp.parent_hash.s).length ++ strBytes cp.parent_hash.s ++
  leBytes 8 cp.cut.length ++
  (cp.cut.map (fun e =>
    leBytes 8 e.validator.bytes.length ++ e.validator.bytes ++
    leBytes 8 (strBytes e.dp_hash.s).length ++ strBytes e.dp_hash.s ++
    leBytes 8 e.poda.signature.bytes.length ++ e.poda.signature.bytes)).flatten ++
  leBytes 8 cp.new_bonded_validators.length ++
  (cp.new_bonded_validators.map (fun v => leBytes 8 v.bytes.length ++ v.bytes)).flatten

/-- Modelled from the spec: `ConsensusProposal::hash`. -/
def consensusProposalHash (cp : ConsensusProposal) : ConsensusProposalHash :=
  ConsensusProposalHash.mk (hexEncode (sha3_256 (consensusProposalSerialize cp)))

/-- `SignedBlock` from `src/model.rs`. -/
structure SignedBlock where
  data_proposals : List (ValidatorPublicKey × List DataProposal)
  certificate : AggregateSignature
  consensus_proposal : ConsensusProposal
deriving DecidableEq, Repr

/-- `SignedBlock::txs`: flat-map the stored lanes in order, and within each
lane flat-map the data proposals' transactions in order. -/
def SignedBlock.txs (b : SignedBlock) : List Transaction :=
  (b.data_proposals.map (fun p => (p.2.map (fun dp => dp.txs)).flatten)).flatten

/-- `Hashable<ConsensusProposalHash> for SignedBlock`: the hash of the
embedded consensus proposal. -/
def signedBlockHash (b : SignedBlock) : ConsensusProposalHash :=
  consensusProposalHash b.consensus_proposal

/-- `PartialEq for SignedBlock`: equality compares the hashes. -/
def signedBlockEq (a b : SignedBlock) : Bool :=
  signedBlockHash a = signedBlockHash b

/-! ### Proof verifier dispatch (`src/data_availability/node_state/verifiers.rs`)

The spec treats the backends as opaque `verify(proof, program_id) → outputs`
functions (§1, §9); they call external libraries that are not part of the
core, so each backend is a parameter of the dispatch. -/

/-- The backend functions `verify_proof` dispatches to. `testVerify` is the
`serde_json::from_slice` decoding of the `"test"` arm; the other four take
the proof bytes and the program-id bytes. -/
structure VerifierBackends where
  testVerify : List Byte → Except String (List HyleOutput)
  risc0Verify : List Byte → List Byte → Except String (List HyleOutput)
  noirVerify : List Byte → List Byte → Except String (List HyleOutput)
  sp1Verify : List Byte → List Byte → Except String (List HyleOutput)
  reclaimVerify : List Byte → List Byte → Except String (List HyleOutput)

def notImplementedMsg (verifier : String) : String :=
  verifier ++ " recursive verifier not implemented yet"

/-- `verify_proof`: dispatch on the verifier name; unrecognized names bail
with an error (the `cfg(test)`-only `"test-slow"` arm is not part of the
non-test build). -/
def verify_proof (bk : VerifierBackends) (proof : List Byte) (verifier : Verifier)
    (program_id : ProgramId) : Except String (List HyleOutput) :=
  if verifier.s = "test" then bk.testVerify proof
  else if verifier.s = "risc0" then bk.risc0Verify proof program_id.bytes
  else if verifier.s = "noir" then bk.noirVerify proof program_id.bytes
  else if verifier.s = "sp1" then bk.sp1Verify proof program_id.bytes
  else if verifier.s = "reclaim" then bk.reclaimVerify proof program_id.bytes
  else Except.error (notImplementedMsg verifier.s)

/-! ### Noir backend file handling (`noir_proof_verifier`)

The function shells out to the `bb` CLI; the file system is an explicit state
(path ↦ content), and the outcomes of the two external `bb` invocations and
of output parsing are parameters of the run. -/

structure FileSys where
  files : List (String × List Byte)
deriving DecidableEq, Repr

def fsWrite (fs : FileSys) (path : String) (content : List Byte) : FileSys :=
  FileSys.mk ((fs.files.filter (fun p => p.1 ≠ path)) ++ [(path, content)])

def fsRemove (fs : FileSys) (path : String) : FileSys :=
  FileSys.mk (fs.files.filter (fun p => p.1 ≠ path))

def fsHas (fs : FileSys) (path : String) : Bool :=
  fs.files.any (fun p => p.1 = path)

/-- Environment of one `noir_proof_verifier` run: the random salt (hex of 16
random bytes), the exit status of `bb verify` and `bb proof_as_fields`, the
output file `bb` writes on successful extraction, and the result of
`serde_json` decoding plus `parse_noir_output` on that file (external code). -/
structure NoirRunEnv where
  salt_hex : String
  verify_success : Bool
  extract_success : Bool
  output_content : List Byte
  parse_output : Except String HyleOutput

def noirProofPath (env : NoirRunEnv) : String := "/tmp/noir-proof-" ++ env.salt_hex
def noirVkPath (env : NoirRunEnv) : String := "/tmp/noir-vk-" ++ env.salt_hex
def noirOutputPath (env : NoirRunEnv) : String := "/tmp/noir-output-" ++ env.salt_hex

def noirVerifyFailedMsg : String := "Noir proof verification failed"
def noirExtractFailedMsg : String := "Could not extract output from Noir proof"

/-- `noir_proof_verifier`: write the proof and verification key to the salted
paths, run `bb verify` (bail on failure), run `bb proof_as_fields` (bail on
failure; on success `bb` writes the output file), read and parse the output
(propagate errors), and only then delete the three files. -/
def noir_proof_verifier (env : NoirRunEnv) (proof : List Byte) (image_id : List Byte)
    (fs : FileSys) : Except String (List HyleOutput) × FileSys :=
  let fs1 := fsWrite fs (noirProofPath env) proof
  let fs2 := fsWrite fs1 (noirVkPath env) image_id
  if !env.verify_success then
    (Except.error noirVerifyFailedMsg, fs2)
  else if !env.extract_success then
    (Except.error noirExtractFailedMsg, fs2)
  else
    let fs3 := fsWrite fs2 (noirOutputPath env) env.output_content
    match env.parse_output with
    | Except.error e => (Except.error e, fs3)
    | Except.ok hyle_output =>
      let fs4 := fsRemove (fsRemove (fsRemove fs3 (noirProofPath env)) (noirVkPath env))
        (noirOutputPath env)
      (Except.ok [hyle_output], fs4)

/-! ### Contract-state indexer (`src/indexer/contract_state_indexer.rs`)

The store's `BTreeMap<TxHash, BlobTransaction>` is modelled as an association
list with map semantics; the generic contract handler
(`ContractHandler::handle`) is a parameter, as in the generic Rust code. -/

def mapGet (m : List (TxHash × BlobTransaction)) (k : TxHash) : Option BlobTransaction :=
  (m.find? (fun p => p.1 = k)).map (fun p => p.2)

def mapRemove (m : List (TxHash × BlobTransaction)) (k : TxHash) :
    List (TxHash × BlobTransaction) :=
  m.filter (fun p => p.1 ≠ k)

/-- The `Store<State>` of the contract-state indexer (bus, config and file
handles are runtime plumbing, not data). -/
structure Store (State : Type) where
  state : Option State
  contract_name : ContractName
  unsettled_blobs : List (TxHash × BlobTransaction)

def noStateMsg (cn : ContractName) : String :=
  "No state found for " ++ cn.s

/-- The settlement loop of `settle_tx` over the enumerated blobs: skip blobs
of other contracts; for a matching blob require a current state and apply the
contract handler, storing the new state; stop at the first error (mutations
already made persist, as through the Rust `&mut` store). -/
def settleBlobs {State : Type}
    (handle : BlobTransaction → BlobIndex → State → Except String State)
    (cn : ContractName) (tx : BlobTransaction) :
    List (Nat × Blob) → Store State → Except String Unit × Store State
  | [], st => (Except.ok (), st)
  | (index, blob) :: rest, st =>
    if cn ≠ blob.contract_name then
      settleBlobs handle cn tx rest st
    else
      match st.state with
      | none => (Except.error (noStateMsg blob.contract_name), st)
      | some s =>
        match handle tx (BlobIndex.mk index) s with
        | Except.error e => (Except.error e, st)
        | Except.ok new_state =>
          settleBlobs handle cn tx rest { st with state := some new_state }

/-- `ContractStateIndexer::settle_tx`: remove the transaction from
`unsettled_blobs` (an absent hash is a no-op returning `Ok`), then run the
settlement loop over the enumerated blobs. -/
def settle_tx {State : Type}
    (handle : BlobTransaction → BlobIndex → State → Except String State)
    (store : Store State) (txh : TxHash) : Except String Unit × Store State :=
  match mapGet store.unsettled_blobs txh with
  | none => (Except.ok (), store)
  | some tx =>
    settleBlobs handle store.contract_name tx tx.blobs.enum
      { store with unsettled_blobs := mapRemove store.unsettled_blobs txh }

/-! ### Spec-side reference definitions and helper lemmas -/

/-- Lexicographic `≤` on byte strings (the `Ord` of `Vec<u8>`), used to order
validator public keys. -/
def bytesLE : List Byte → List Byte → Bool
  | [], _ => true
  | _ :: _, [] => false
  | a :: xs, b :: ys => if a < b then true else if b < a then false else bytesLE xs ys

/-- Ascending order on lanes by validator public key. -/
def laneLE (p q : ValidatorPublicKey × List DataProposal) : Bool :=
  bytesLE p.1.bytes q.1.bytes

def insertLane (p : ValidatorPublicKey × List DataProposal) :
    List (ValidatorPublicKey × List DataProposal) →
    List (ValidatorPublicKey × List DataProposal)
  | [] => [p]
  | q :: rest => if laneLE p q then p :: q :: rest else q :: insertLane p rest

/-- Insertion sort of the lanes by validator public key ascending. -/
def sortLanes (l : List (ValidatorPublicKey × List DataProposal)) :
    List (ValidatorPublicKey × List DataProposal) :=
  l.foldr insertLane []

/-- The canonical transaction order described by the spec: lanes ordered by
validator public key ascending, per-lane insertion order within a lane. -/
def canonicalTxs (b : SignedBlock) : List Transaction :=
  ((sortLanes b.data_proposals).map (fun p => (p.2.map (fun dp => dp.txs)).flatten)).flatten

theorem insertLane_of_le (p : ValidatorPublicKey × List DataProposal)
    (l : List (ValidatorPublicKey × List DataProposal))
    (h : ∀ q ∈ l, laneLE p q = true) : insertLane p l = p :: l := by
  cases l with
  | nil => rfl
  | cons q rest => simp [insertLane, h q (List.mem_cons_self q rest)]

theorem sortLanes_of_pairwise (l : List (ValidatorPublicKey × List DataProposal))
    (h : l.Pairwise (fun p q => laneLE p q = true)) : sortLanes l = l := by
  induction l with
  | nil => rfl
  | cons p rest ih =>
    have hrest : sortLanes rest = rest := ih (List.Pairwise.sublist (List.sublist_cons_self p rest) h)
    have hhead : ∀ q ∈ rest, laneLE p q = true := fun q hq => List.rel_of_pairwise_cons h hq
    calc sortLanes (p :: rest) = insertLane p (sortLanes rest) := rfl
      _ = insertLane p rest := by rw [hrest]
      _ = p :: rest := insertLane_of_le p rest hhead

/-- Example transactions and lanes used in the ordering counterexample. -/
def txOne : Transaction :=
  ⟨1, TransactionData.blob ⟨⟨"one.a"⟩, []⟩⟩

def txTwo : Transaction :=
  ⟨1, TransactionData.blob ⟨⟨"two.a"⟩, []⟩⟩

def laneKeyLow : ValidatorPublicKey := ValidatorPublicKey.mk [1]

def laneKeyHigh : ValidatorPublicKey := ValidatorPublicKey.mk [2]

def dpLow : DataProposal := ⟨⟨"dp1"⟩, none, [txOne]⟩

def dpHigh : DataProposal := ⟨⟨"dp2"⟩, none, [txTwo]⟩

def cpExample : ConsensusProposal :=
  ⟨1, 0, ⟨"genesis"⟩, [], []⟩

def aggExample : AggregateSignature :=
  AggregateSignature.mk (Signature.mk []) []

/-- A `SignedBlock` whose stored lanes are in descending validator-key order. -/
def unsortedBlock : SignedBlock :=
  SignedBlock.mk [(laneKeyHigh, [dpHigh]), (laneKeyLow, [dpLow])] aggExample cpExample

/-- C1 counterexample: `SignedBlock::txs` returns the transactions of
`unsortedBlock` in the stored lane order, not in the validator-key-ascending
canonical order, so the claimed ordering fails on this block. -/
theorem signedBlock_txs_not_canonical :
    SignedBlock.txs unsortedBlock ≠ canonicalTxs unsortedBlock ∧
    SignedBlock.txs unsortedBlock = [txTwo, txOne] ∧
    canonicalTxs unsortedBlock = [txOne, txTwo] := by
  refine ⟨?_, ?_, ?_⟩ <;> decide

/-- C1 (amended): `SignedBlock::txs` concatenates the lanes in the order they
are stored in `data_proposals`, preserving per-lane insertion order; it equals
the canonical validator-key-ascending order exactly when the stored lane
sequence is already pairwise sorted by validator public key. -/
theorem signedBlock_txs_of_sorted_lanes (b : SignedBlock)
    (h : b.data_proposals.Pairwise (fun p q => laneLE p q = true)) :
    SignedBlock.txs b = canonicalTxs b := by
  unfold SignedBlock.txs canonicalTxs
  rw [sortLanes_of_pairwise b.data_proposals h]

/-- A `SignedBlock` whose stored lanes are in ascending validator-key order. -/
def sortedBlock : SignedBlock :=
  SignedBlock.mk [(laneKeyLow, [dpLow]), (laneKeyHigh, [dpHigh])] aggExample cpExample

/-- Witness for the amended C1 theorem at a concrete sorted block. -/
theorem signedBlock_txs_of_sorted_lanes_witness :
    SignedBlock.txs sortedBlock = canonicalTxs sortedBlock :=
  signedBlock_txs_of_sorted_lanes sortedBlock (by decide)

/-! ### Hash serialization claims -/

/-- The canonical serialization of a `HyleOutput` following the spec's words
(§4.A: fixed field order, little-endian lengths, length-prefixed variable
fields); defined only for the refinement comparison with the code's
`hyleOutputHashInput`. -/
def specHyleOutputSerialization (ho : HyleOutput) : List Byte :=
  leBytes 4 ho.version ++
  leBytes 8 ho.initial_state.bytes.length ++ ho.initial_state.bytes ++
  leBytes 8 ho.next_state.bytes.length ++ ho.next_state.bytes ++
  leBytes 8 (strBytes ho.identity.s).length ++ strBytes ho.identity.s ++
  leBytes 8 (strBytes ho.tx_hash.s).length ++ strBytes ho.tx_hash.s ++
  leBytes 8 ho.index.i ++
  leBytes 8 ho.blobs.length ++ ho.blobs ++
  [if ho.success then 1 else 0] ++
  leBytes 8 ho.program_outputs.length ++ ho.program_outputs

/-- Two distinct `HyleOutput`s that differ only in how the bytes `[7, 9]` are
split between `initial_state` and `next_state`. -/
def hoSplitA : HyleOutput :=
  ⟨1, ⟨[7, 9]⟩, ⟨[]⟩, ⟨"id.c"⟩, ⟨""⟩, ⟨0⟩, [], true, []⟩

def hoSplitB : HyleOutput :=
  ⟨1, ⟨[7]⟩, ⟨[9]⟩, ⟨"id.c"⟩, ⟨""⟩, ⟨0⟩, [], true, []⟩

/-- C3 counterexample: the bytes fed to SHA3-256 for a `HyleOutput` are not
the length-prefixed canonical serialization — they differ from it on a
concrete output, and two distinct outputs feed identical bytes (hence collide
on the full hash), which no length-prefixed serialization allows. -/
theorem hyleOutput_hash_input_not_length_prefixed :
    hyleOutputHashInput hoSplitA ≠ specHyleOutputSerialization hoSplitA ∧
    hyleOutputHashInput hoSplitA = hyleOutputHashInput hoSplitB ∧
    hoSplitA ≠ hoSplitB ∧
    hyleOutputHash hoSplitA = hyleOutputHash hoSplitB := by
  refine ⟨by decide, by decide, by decide, ?_⟩
  have h : hyleOutputHashInput hoSplitA = hyleOutputHashInput hoSplitB := by decide
  unfold hyleOutputHash
  rw [h]

/-- C3 (amended): the bytes fed to SHA3-256 for `HyleOutput` and for
`BlobTransaction` are the fields concatenated in fixed declaration order with
no length prefix on any variable-length field (only fixed-width integers are
encoded little-endian); consequently distinct `HyleOutput`s can feed
identical bytes. -/
theorem hash_inputs_are_plain_concatenation :
    (∀ ho : HyleOutput,
      hyleOutputHashInput ho =
        leBytes 4 ho.version ++ ho.initial_state.bytes ++ ho.next_state.bytes ++
        strBytes ho.identity.s ++ strBytes ho.tx_hash.s ++ leBytes 8 ho.index.i ++
        ho.blobs ++ [if ho.success then 1 else 0] ++ ho.program_outputs) ∧
    (∀ tx : BlobTransaction,
      hasherInput (blobTxHashUpdates tx) =
        strBytes tx.identity.s ++ strBytes tx.blobs_hash.s) ∧
    hyleOutputHashInput hoSplitA = hyleOutputHashInput hoSplitB ∧ hoSplitA ≠ hoSplitB := by
  refine ⟨?_, ?_, by decide, by decide⟩
  · intro ho
    simp [hyleOutputHashInput, hyleOutputHashUpdates, hasherInput]
  · intro tx
    simp [blobTxHashUpdates, hasherInput]

/-- C4: the `BlobTransaction` hash is SHA3-256 of the identity bytes followed
by the (hex-transported) SHA3-256 of the flattened blob list. -/
theorem blobTx_hash_composition (tx : BlobTransaction) :
    blobTxHash tx =
      TxHash.mk (hexEncode (sha3_256
        (strBytes tx.identity.s ++
         strBytes (hexEncode (sha3_256 (flatten_blobs tx.blobs)))))) := by
  simp [blobTxHash, blobTxHashUpdates, hasherInput, BlobTransaction.blobs_hash,
    blobsHashFromVec, blobsHashFromConcatenated]

theorem blobTxHash_eq_of_flatten_eq (t1 t2 : BlobTransaction)
    (hid : t1.identity = t2.identity)
    (hfl : flatten_blobs t1.blobs = flatten_blobs t2.blobs) :
    blobTxHash t1 = blobTxHash t2 := by
  simp [blobTxHash, blobTxHashUpdates, hasherInput, BlobTransaction.blobs_hash,
    blobsHashFromVec, blobsHashFromConcatenated, hid, hfl]

/-- Blobs whose flattened bytes commute: `"a" ++ "aa" = "aa" ++ "a"`. -/
def blobShort : Blob := ⟨⟨"a"⟩, ⟨[]⟩⟩

def blobLong : Blob := ⟨⟨"aa"⟩, ⟨[]⟩⟩

def permTxA : BlobTransaction :=
  ⟨⟨"user.a"⟩, [blobShort, blobLong]⟩

def permTxB : BlobTransaction :=
  ⟨⟨"user.a"⟩, [blobLong, blobShort]⟩

/-- C5 counterexample: permuting the blobs of a concrete `BlobTransaction`
(to a genuinely different list) leaves the hash unchanged, because the
flattened blob serialization concatenates name and data bytes without length
prefixes. -/
theorem blobTx_hash_permutation_collision :
    permTxB.blobs.Perm permTxA.blobs ∧
    permTxA.blobs ≠ permTxB.blobs ∧
    permTxA.identity = permTxB.identity ∧
    blobTxHash permTxA = blobTxHash permTxB := by
  refine ⟨List.Perm.swap blobShort blobLong [], by decide, rfl, ?_⟩
  exact blobTxHash_eq_of_flatten_eq permTxA permTxB rfl (by decide)

/-- C5 (amended): `BlobTransaction` hashing is deterministic — equal identity
and equal blob list give equal hashes — but permuting the blobs does not
always change the hash: the flattened blob serialization is not injective in
the blob order, witnessed by a concrete reordered pair with equal hashes. -/
theorem blobTx_hash_deterministic_not_order_injective :
    (∀ t1 t2 : BlobTransaction, t1.identity = t2.identity → t1.blobs = t2.blobs →
      blobTxHash t1 = blobTxHash t2) ∧
    (permTxB.blobs.Perm permTxA.blobs ∧ permTxA.blobs ≠ permTxB.blobs ∧
      blobTxHash permTxA = blobTxHash permTxB) := by
  refine ⟨?_, List.Perm.swap blobShort blobLong [], by decide, ?_⟩
  · intro t1 t2 hid hbl
    exact blobTxHash_eq_of_flatten_eq t1 t2 hid (by rw [hbl])
  · exact blobTxHash_eq_of_flatten_eq permTxA permTxB rfl (by decide)

/-- Witness for the determinism half of the amended C5 theorem at concrete
equal transactions. -/
def detTx : BlobTransaction := ⟨⟨"w.a"⟩, [blobShort]⟩

/-- Witness application of the determinism theorem at `detTx`. -/
theorem blobTx_hash_deterministic_witness :
    blobTxHash detTx = blobTxHash detTx :=
  blobTx_hash_deterministic_not_order_injective.1 detTx detTx rfl rfl

/-! ### Identity-validation claims -/

theorem splitDotChars_ne_nil (l : List Char) : splitDotChars l ≠ [] := by
  cases l with
  | nil => simp [splitDotChars]
  | cons c rest =>
    unfold splitDotChars
    by_cases h : c = '.'
    · simp [h]
    · simp [h]
      split <;> simp

theorem splitDotChars_of_no_dot (l : List Char) (h : '.' ∉ l) : splitDotChars l = [l] := by
  induction l with
  | nil => rfl
  | cons c rest ih =>
    have hc : ¬c = '.' := fun e => h (e ▸ List.mem_cons_self c rest)
    have hr : '.' ∉ rest := fun m => h (List.mem_cons_of_mem c m)
    unfold splitDotChars
    simp [hc, ih hr]

theorem splitDotChars_length_of_dot (l : List Char) (h : '.' ∈ l) :
    2 ≤ (splitDotChars l).length := by
  induction l with
  | nil => cases h
  | cons c rest ih =>
    unfold splitDotChars
    by_cases hc : c = '.'
    · simp [hc]
      cases hs : splitDotChars rest with
      | nil => exact absurd hs (splitDotChars_ne_nil rest)
      | cons a t => simp
    · have hr : '.' ∈ rest := by
        cases List.mem_cons.mp h with
        | inl e => exact absurd e.symm hc
        | inr m => exact m
      simp [hc]
      cases hs : splitDotChars rest with
      | nil => exact absurd hs (splitDotChars_ne_nil rest)
      | cons a t =>
        have h2 := ih hr
        rw [hs] at h2
        simpa using h2

theorem splitDotChars_getLast_append (u t : List Char) (h : '.' ∉ t) :
    (splitDotChars (u ++ '.' :: t)).getLast? = some t := by
  induction u with
  | nil =>
    show (splitDotChars ('.' :: t)).getLast? = some t
    unfold splitDotChars
    simp [splitDotChars_of_no_dot t h]
  | cons c u' ih =>
    show (splitDotChars (c :: (u' ++ '.' :: t))).getLast? = some t
    unfold splitDotChars
    by_cases hc : c = '.'
    · subst hc
      rw [if_pos rfl]
      rcases List.exists_cons_of_ne_nil (splitDotChars_ne_nil (u' ++ '.' :: t)) with ⟨a, t', hs⟩
      rw [hs] at ih ⊢
      rw [List.getLast?_cons_cons]
      exact ih
    · rw [if_neg hc]
      rcases List.exists_cons_of_ne_nil (splitDotChars_ne_nil (u' ++ '.' :: t)) with ⟨s, ss, hs⟩
      have hmem : '.' ∈ u' ++ '.' :: t := List.mem_append_right u' (List.mem_cons_self _ _)
      have hlen := splitDotChars_length_of_dot _ hmem
      rw [hs] at hlen ih ⊢
      cases ss with
      | nil => simp at hlen
      | cons b bs =>
        show ((c :: s) :: b :: bs).getLast? = some t
        rw [List.getLast?_cons_cons]
        rw [List.getLast?_cons_cons] at ih
        exact ih

/-- The rejected transaction of the spec's scenario 4: identity
`"alice.bogus"` with no blob on contract `bogus`. -/
def aliceBogusTx : BlobTransaction :=
  ⟨⟨"alice.bogus"⟩, [⟨⟨"other"⟩, ⟨[]⟩⟩]⟩

/-- C2: `validate_identity` returns `Ok` exactly when some blob's contract
name equals the identity's suffix (the last `split('.')` segment, i.e. the
part after the last dot); in particular the `"alice.bogus"` transaction with
no `bogus` blob is rejected. -/
theorem validate_identity_iff_blob_matches_suffix :
    (∀ tx : BlobTransaction, validate_identity tx = Except.ok () ↔
      ∃ b ∈ tx.blobs, b.contract_name.s.data = identitySuffix tx.identity.s) ∧
    (∀ (u t : List Char), '.' ∉ t → identitySuffix (String.mk (u ++ '.' :: t)) = t) ∧
    validate_identity aliceBogusTx =
      Except.error (noIdentityBlobMsg ('b' :: 'o' :: 'g' :: 'u' :: 's' :: [])) := by
  refine ⟨?_, ?_, by rfl⟩
  · intro tx
    unfold validate_identity identitySuffix
    cases hs : (splitDotChars tx.identity.s.data).getLast? with
    | none =>
      rcases List.exists_cons_of_ne_nil (splitDotChars_ne_nil tx.identity.s.data) with ⟨a, l, he⟩
      rw [he] at hs
      simp [List.getLast?] at hs
    | some suffix =>
      by_cases ha : tx.blobs.any (fun blob => blob.contract_name.s.data = suffix)
      · simp only [ha, if_pos ha]
        rw [List.any_eq_true] at ha
        simpa using ha
      · simp only [if_neg ha]
        constructor
        · intro h
          exact Except.noConfusion h
        · intro h
          exact absurd (by simpa using h) ha
  · intro u t h
    unfold identitySuffix
    rw [show (String.mk (u ++ '.' :: t)).data = u ++ '.' :: t from rfl,
      splitDotChars_getLast_append u t h]
    rfl

/-- Witness for C2's decomposition hypothesis at `"alice" ++ "." ++ "bogus"`. -/
theorem validate_identity_suffix_witness :
    identitySuffix (String.mk (('a' :: 'l' :: 'i' :: 'c' :: 'e' :: []) ++ '.' ::
      ('b' :: 'o' :: 'g' :: 'u' :: 's' :: []))) =
      'b' :: 'o' :: 'g' :: 'u' :: 's' :: [] :=
  validate_identity_iff_blob_matches_suffix.2.1
    ('a' :: 'l' :: 'i' :: 'c' :: 'e' :: []) ('b' :: 'o' :: 'g' :: 'u' :: 's' :: []) (by decide)

/-- C9: the malformed-identity error branch of `validate_identity` is
unreachable — `split('.')` always yields at least one segment, a dot-free
identity's suffix is the whole identity, and every failure is the
missing-blob error for the computed suffix. -/
theorem validate_identity_no_malformed_error :
    (∀ l : List Char, splitDotChars l ≠ []) ∧
    (∀ s : String, '.' ∉ s.data → identitySuffix s = s.data) ∧
    (∀ (tx : BlobTransaction) (e : String), validate_identity tx = Except.error e →
      e = noIdentityBlobMsg (identitySuffix tx.identity.s)) := by
  refine ⟨splitDotChars_ne_nil, ?_, ?_⟩
  · intro s h
    unfold identitySuffix
    rw [splitDotChars_of_no_dot s.data h]
    rfl
  · intro tx e
    unfold validate_identity identitySuffix
    cases hs : (splitDotChars tx.identity.s.data).getLast? with
    | none =>
      rcases List.exists_cons_of_ne_nil (splitDotChars_ne_nil tx.identity.s.data) with ⟨a, l, he⟩
      rw [he] at hs
      simp [List.getLast?] at hs
    | some suffix =>
      by_cases ha : tx.blobs.any (fun blob => blob.contract_name.s.data = suffix)
      · simp [ha]
      · simp only [if_neg ha]
        intro h
        simpa using h.symm

/-- Witness for C9 at the dot-free identity `"solo"`. -/
theorem validate_identity_no_malformed_witness :
    identitySuffix (String.mk ('s' :: 'o' :: 'l' :: 'o' :: [])) =
      's' :: 'o' :: 'l' :: 'o' :: [] :=
  validate_identity_no_malformed_error.2.1 (String.mk ('s' :: 'o' :: 'l' :: 'o' :: []))
    (by decide)

/-! ### Verifier dispatch claim -/

/-- Backends that accept everything, used to instantiate the dispatch
theorems on concrete inputs. -/
def okBackends : VerifierBackends :=
  ⟨fun _ => Except.ok [], fun _ _ => Except.ok [], fun _ _ => Except.ok [],
   fun _ _ => Except.ok [], fun _ _ => Except.ok []⟩

def unknownVerifier : Verifier := ⟨"groth16"⟩

/-- C6: `verify_proof` dispatches each recognized verifier name to the
corresponding backend and returns its result; every other verifier name
yields the not-implemented error. -/
theorem verify_proof_dispatch :
    (∀ (bk : VerifierBackends) (p : List Byte) (pid : ProgramId),
      verify_proof bk p ⟨"test"⟩ pid = bk.testVerify p ∧
      verify_proof bk p ⟨"risc0"⟩ pid = bk.risc0Verify p pid.bytes ∧
      verify_proof bk p ⟨"noir"⟩ pid = bk.noirVerify p pid.bytes ∧
      verify_proof bk p ⟨"sp1"⟩ pid = bk.sp1Verify p pid.bytes ∧
      verify_proof bk p ⟨"reclaim"⟩ pid = bk.reclaimVerify p pid.bytes) ∧
    (∀ (bk : VerifierBackends) (p : List Byte) (v : Verifier) (pid : ProgramId),
      v.s ∉ (["test", "risc0", "noir", "sp1", "reclaim"] : List String) →
      verify_proof bk p v pid = Except.error (notImplementedMsg v.s)) := by
  constructor
  · intro bk p pid
    exact ⟨rfl, rfl, rfl, rfl, rfl⟩
  · intro bk p v pid hv
    simp only [List.mem_cons, List.not_mem_nil, or_false, not_or] at hv
    obtain ⟨h1, h2, h3, h4, h5⟩ := hv
    simp [verify_proof, h1, h2, h3, h4, h5]

/-- Witness for the unknown-verifier branch of the C6 theorem at
`"groth16"`. -/
theorem verify_proof_dispatch_witness :
    verify_proof okBackends [] unknownVerifier ⟨[]⟩ =
      Except.error (notImplementedMsg unknownVerifier.s) :=
  verify_proof_dispatch.2 okBackends [] unknownVerifier ⟨[]⟩ (by decide)

/-! ### Contract-state indexer settlement claim -/

/-- Reference settlement order: apply the contract handler sequentially to an
explicit list of (index, blob) entries, threading the optional state and
stopping at the first failure. -/
def applyHandlerSeq {State : Type}
    (handle : BlobTransaction → BlobIndex → State → Except String State)
    (tx : BlobTransaction) :
    List (Nat × Blob) → Option State → Except String Unit × Option State
  | [], s => (Except.ok (), s)
  | (index, blob) :: rest, s =>
    match s with
    | none => (Except.error (noStateMsg blob.contract_name), none)
    | some st =>
      match handle tx ⟨index⟩ st with
      | Except.error e => (Except.error e, some st)
      | Except.ok new_state => applyHandlerSeq handle tx rest (some new_state)

/-- The matching entries a settlement touches: the enumerated blobs whose
contract name is the indexer's. -/
def matchingEntries (cn : ContractName) (tx : BlobTransaction) : List (Nat × Blob) :=
  tx.blobs.enum.filter (fun e => cn = e.2.contract_name)

theorem settleBlobs_eq_applyHandlerSeq {State : Type}
    (handle : BlobTransaction → BlobIndex → State → Except String State)
    (cn : ContractName) (tx : BlobTransaction) :
    ∀ (entries : List (Nat × Blob)) (st : Store State),
      settleBlobs handle cn tx entries st =
        ((applyHandlerSeq handle tx
            (entries.filter (fun e => cn = e.2.contract_name)) st.state).1,
         { st with state := (applyHandlerSeq handle tx
            (entries.filter (fun e => cn = e.2.contract_name)) st.state).2 }) := by
  intro entries
  induction entries with
  | nil => intro st; rfl
  | cons e rest ih =>
    intro st
    obtain ⟨index, blob⟩ := e
    obtain ⟨sst, scn, sub⟩ := st
    by_cases hcn : cn = blob.contract_name
    · have hfil : (((index, blob) :: rest).filter (fun e => cn = e.2.contract_name)) =
          (index, blob) :: rest.filter (fun e => cn = e.2.contract_name) := by
        simp [List.filter, hcn]
      rw [hfil]
      cases sst with
      | none =>
        simp [settleBlobs, applyHandlerSeq, not_not_intro hcn]
      | some s =>
        cases hh : handle tx ⟨index⟩ s with
        | error err =>
          simp [settleBlobs, applyHandlerSeq, not_not_intro hcn, hh]
        | ok new_state =>
          have hrest := ih ⟨some new_state, scn, sub⟩
          simp only [settleBlobs, applyHandlerSeq, if_neg (not_not_intro hcn), hh] at hrest ⊢
          exact hrest
    · have hfil : (((index, blob) :: rest).filter (fun e => cn = e.2.contract_name)) =
          rest.filter (fun e => cn = e.2.contract_name) := by
        simp [List.filter, hcn]
      rw [hfil]
      simp only [settleBlobs, if_pos hcn]
      exact ih ⟨sst, scn, sub⟩

theorem mapGet_mapRemove (m : List (TxHash × BlobTransaction)) (k : TxHash) :
    mapGet (mapRemove m k) k = none := by
  induction m with
  | nil => rfl
  | cons p t ih =>
    by_cases h : p.1 = k
    · simpa [mapRemove, List.filter, h] using ih
    · simpa [mapRemove, mapGet, List.filter, List.find?, h] using ih

theorem le_fst_of_mem_enumFrom {α : Type} (l : List α) :
    ∀ (k : Nat) (p : Nat × α), p ∈ l.enumFrom k → k ≤ p.1 := by
  induction l with
  | nil => intro k p h; cases h
  | cons a t ih =>
    intro k p h
    cases h with
    | head => exact Nat.le_refl k
    | tail _ m => exact Nat.le_trans (Nat.le_succ k) (ih (k + 1) p m)

theorem enumFrom_pairwise_fst_lt {α : Type} (l : List α) :
    ∀ k, (l.enumFrom k).Pairwise (fun a b => a.1 < b.1) := by
  induction l with
  | nil => intro _; exact List.Pairwise.nil
  | cons a t ih =>
    intro k
    refine List.Pairwise.cons ?_ (ih (k + 1))
    intro p hp
    exact Nat.lt_of_lt_of_le (Nat.lt_succ_self k) (le_fst_of_mem_enumFrom t (k + 1) p hp)

/-- C7: settling a transaction hash removes its entry from the
unsettled-blobs map (a hash with no entry leaves the store unchanged), and
the stored state advances by applying the contract handler to exactly the
blobs of the indexer's contract, in increasing blob-index order. -/
theorem settle_tx_spec {State : Type}
    (handle : BlobTransaction → BlobIndex → State → Except String State)
    (store : Store State) (txh : TxHash) :
    mapGet (settle_tx handle store txh).2.unsettled_blobs txh = none ∧
    (mapGet store.unsettled_blobs txh = none →
      settle_tx handle store txh = (Except.ok (), store)) ∧
    (∀ tx, mapGet store.unsettled_blobs txh = some tx →
      settle_tx handle store txh =
        ((applyHandlerSeq handle tx (matchingEntries store.contract_name tx) store.state).1,
         { store with
             unsettled_blobs := mapRemove store.unsettled_blobs txh,
             state := (applyHandlerSeq handle tx
               (matchingEntries store.contract_name tx) store.state).2 }) ∧
      (matchingEntries store.contract_name tx).Pairwise (fun a b => a.1 < b.1)) := by
  refine ⟨?_, ?_, ?_⟩
  · cases hm : mapGet store.unsettled_blobs txh with
    | none => simp [settle_tx, hm]
    | some tx =>
      simp only [settle_tx, hm]
      rw [settleBlobs_eq_applyHandlerSeq handle store.contract_name tx tx.blobs.enum]
      exact mapGet_mapRemove store.unsettled_blobs txh
  · intro hm
    simp [settle_tx, hm]
  · intro tx hm
    constructor
    · simp only [settle_tx, hm]
      rw [settleBlobs_eq_applyHandlerSeq handle store.contract_name tx tx.blobs.enum]
      rfl
    · exact List.Pairwise.filter _ (by
        have h := enumFrom_pairwise_fst_lt tx.blobs 0
        simpa [List.enum] using h)

/-- Concrete handler, store and transaction instantiating the settlement
theorem. -/
def natHandle : BlobTransaction → BlobIndex → Nat → Except String Nat :=
  fun _ idx s => Except.ok (s + idx.i + 1)

def settledTx : BlobTransaction :=
  ⟨⟨"user.c"⟩, [⟨⟨"c"⟩, ⟨[]⟩⟩, ⟨⟨"d"⟩, ⟨[]⟩⟩, ⟨⟨"c"⟩, ⟨[]⟩⟩]⟩

def storeW : Store Nat := ⟨some 0, ⟨"c"⟩, [(⟨"h1"⟩, settledTx)]⟩

/-- Witness for the C7 theorem at a concrete store: the entry is removed and
the matching entries are the two `c` blobs at indices 0 and 2, in order. -/
theorem settle_tx_spec_witness :
    (settle_tx natHandle storeW ⟨"h1"⟩ =
      ((applyHandlerSeq natHandle settledTx
          (matchingEntries storeW.contract_name settledTx) storeW.state).1,
       { storeW with
           unsettled_blobs := mapRemove storeW.unsettled_blobs ⟨"h1"⟩,
           state := (applyHandlerSeq natHandle settledTx
             (matchingEntries storeW.contract_name settledTx) storeW.state).2 }) ∧
      (matchingEntries storeW.contract_name settledTx).Pairwise (fun a b => a.1 < b.1)) :=
  (settle_tx_spec natHandle storeW ⟨"h1"⟩).2.2 settledTx (by decide)

/-! ### Noir temp-file claim -/

def unusedParseMsg : String := "unused"

/-- A run environment in which `bb verify` reports failure. -/
def noirFailEnv : NoirRunEnv :=
  ⟨"0123456789abcdef0123456789abcdef", false, false, [], Except.error unusedParseMsg⟩

/-- C8: on the exit path where proof verification fails, `noir_proof_verifier`
returns the verification error but leaves the salted proof and
verification-key files on disk — the cleanup runs only after successful
output extraction, so this concrete run diverges from the
cleanup-on-every-exit-path requirement. -/
theorem noir_temp_files_leak_on_verify_failure :
    (noir_proof_verifier noirFailEnv [1] [2] ⟨[]⟩).1 = Except.error noirVerifyFailedMsg ∧
    fsHas (noir_proof_verifier noirFailEnv [1] [2] ⟨[]⟩).2 (noirProofPath noirFailEnv) = true ∧
    fsHas (noir_proof_verifier noirFailEnv [1] [2] ⟨[]⟩).2 (noirVkPath noirFailEnv) = true := by
  exact ⟨rfl, by decide, by decide⟩

/-! ### SignedBlock hash claim -/

/-- C10: a `SignedBlock`'s hash is the hash of its consensus proposal, and
equality of `SignedBlock`s compares exactly these hashes, so blocks with the
same proposal are equal regardless of lanes or certificate. -/
theorem signedBlock_hash_is_proposal_hash :
    (∀ b : SignedBlock, signedBlockHash b = consensusProposalHash b.consensus_proposal) ∧
    (∀ a b : SignedBlock, a.consensus_proposal = b.consensus_proposal →
      signedBlockEq a b = true) := by
  refine ⟨fun b => rfl, ?_⟩
  intro a b h
  simp [signedBlockEq, signedBlockHash, h]

/-- Blocks with the same proposal but different lanes and certificates. -/
def blockW1 : SignedBlock := ⟨[(laneKeyLow, [dpLow])], aggExample, cpExample⟩

def blockW2 : SignedBlock := ⟨[], ⟨⟨[5]⟩, [laneKeyHigh]⟩, cpExample⟩

/-- Witness for the C10 theorem: two concrete blocks differing in lanes and
certificate compare equal. -/
theorem signedBlock_hash_is_proposal_hash_witness :
    signedBlockEq blockW1 blockW2 = true :=
  signedBlock_hash_is_proposal_hash.2 blockW1 blockW2 rfl

end Hyle
